import Mathlib

/-!
Shallow embedding of the CSV de-duplication data model of `src/model.py`:
`Header`, `Entry`, `Table`, and the CSV codec `CSV_to_table` / `table_to_CSV`.

Python dictionaries preserve insertion order, so a cell
(`dict[str, object]` with every value `None`) is modelled as an
insertion-ordered list of its keys.  Python object identity matters for
`Table.remove_entry` (the `Entry` class defines no `__eq__`, so `==` on
entries is identity): table rows are therefore modelled as references
(`Obj`), an identity tag paired with the entry value.
-/

/-- `Header`: an immutable ordered list of column names (a Python `tuple`,
modelled as a `List`). -/
structure Header where
  column_names : List String
deriving DecidableEq, Repr

/-- `Header.get_column_names`. -/
def Header.get_column_names (h : Header) : List String := h.column_names

/-- `Header.get_column_count`. -/
def Header.get_column_count (h : Header) : Nat := h.column_names.length

/-- `Header.get_copy`: shares the same (immutable) name sequence. -/
def Header.get_copy (h : Header) : Header := ⟨h.column_names⟩

/-- `d.update({v: None})` on a cell dictionary: an existing key keeps its
position (only its value, always `None`, is overwritten); a new key is
appended at the end. -/
def dictUpdate (d : List String) (v : String) : List String :=
  if v ∈ d then d else d ++ [v]

/-- `Entry`: `__cell_values` is one dictionary per column.  The source also
stores `__column_count`, but it always equals `len(__cell_values)` (both are
set from the same list in `__init__` and no operation changes the length of
either), so the embedding derives the count from the list. -/
structure Entry where
  cells : List (List String)
deriving DecidableEq, Repr

/-- `Entry.get_column_count` (= `__column_count`). -/
def Entry.get_column_count (e : Entry) : Nat := e.cells.length

/-- `Entry.__init__(*, length=0, values=[])`: when `values` is `None` or
empty it is replaced by `length` copies of `""`; then each non-empty value
seeds its column's dictionary with one key, while an empty string leaves the
column's dictionary empty. -/
def Entry.init (length : Nat) (values : List String) : Entry :=
  let values := if values.isEmpty then List.replicate length "" else values
  ⟨values.map (fun v => if v = "" then [] else [v])⟩

/-- The dictionary stored for column `c` (every read of `__cell_values` by the
source's own loops is at an in-range index, where the default is irrelevant). -/
def Entry.valuesAt (e : Entry) (c : Nat) : List String := (e.cells[c]?).getD []

/-- `Entry.append_value_to_column`: silently returns on an out-of-range index
(any negative index included) or on the empty string; otherwise performs
`self.__cell_values[column_index].update({value: None})`. -/
def Entry.append_value_to_column (e : Entry) (column_index : Int) (value : String) : Entry :=
  if column_index < 0 ∨ (e.get_column_count : Int) ≤ column_index then e
  else if value = "" then e
  else ⟨e.cells.set column_index.toNat (dictUpdate (e.valuesAt column_index.toNat) value)⟩

/-- `Entry.set_value_at_column`: same guards as append; otherwise clears the
column's dictionary and inserts only `value`, leaving the cell `[value]`. -/
def Entry.set_value_at_column (e : Entry) (column_index : Int) (value : String) : Entry :=
  if column_index < 0 ∨ (e.get_column_count : Int) ≤ column_index then e
  else if value = "" then e
  else ⟨e.cells.set column_index.toNat [value]⟩

/-- Python list subscript `l[i]`: a negative index counts from the end; an
index still out of range after that adjustment raises `IndexError` (`none`). -/
def pyGetElem {α : Type} (l : List α) (i : Int) : Option α :=
  let j := if i < 0 then i + l.length else i
  if 0 ≤ j ∧ j < (l.length : Int) then l[j.toNat]? else none

/-- `Entry.get_values_from_column`:
`list(self.__cell_values[column_index].keys())`, with no bounds check of its
own — bare Python subscript semantics apply to `column_index`. -/
def Entry.get_values_from_column (e : Entry) (column_index : Int) : Option (List String) :=
  pyGetElem e.cells column_index

/-- `Entry.get_value_str_from_column`: `""` on an out-of-range index, else the
column's values joined by `separator` (the inner read is then in range). -/
def Entry.get_value_str_from_column (e : Entry) (column_index : Int) (separator : String) :
    String :=
  if column_index < 0 ∨ (e.get_column_count : Int) ≤ column_index then ""
  else String.intercalate separator ((e.get_values_from_column column_index).getD [])

/-- `Entry.get_value_str_from_columns`: one joined string per column. -/
def Entry.get_value_str_from_columns (e : Entry) (separator : String) : List String :=
  (List.range e.get_column_count).map
    (fun (c : Nat) => e.get_value_str_from_column (c : Int) separator)

/-- The inner loop shared by `get_deep_copy` and `merge_entries`: append each
value of `l`, in order, to column `c` of `acc`. -/
def appendAll (acc : Entry) (c : Nat) (l : List String) : Entry :=
  l.foldl (fun a v => a.append_value_to_column (c : Int) v) acc

/-- `Entry.get_deep_copy`: a fresh `Entry(length=self.__column_count)` into
which every column's values are re-appended in order. -/
def Entry.get_deep_copy (e : Entry) : Entry :=
  (List.range e.get_column_count).foldl
    (fun acc c => appendAll acc c ((e.get_values_from_column (c : Int)).getD []))
    (Entry.init e.get_column_count [])

/-- One iteration of the outer loop of `merge_entries`: append `entry`'s
values into `acc`, column by column, for the first
`min(self.__column_count, entry.__column_count)` columns. -/
def mergeStep (self_count : Nat) (acc : Entry) (entry : Entry) : Entry :=
  (List.range (min self_count entry.get_column_count)).foldl
    (fun a c => appendAll a c ((entry.get_values_from_column (c : Int)).getD [])) acc

/-- `Entry.merge_entries`: start from a deep copy of `self`; fold the merge
step over `entries` (`None` or an empty list returns the plain deep copy,
which is also what the loop does on an empty list). -/
def Entry.merge_entries (self : Entry) (entries : List Entry) : Entry :=
  entries.foldl (mergeStep self.get_column_count) self.get_deep_copy

/-- A Python reference to an `Entry` object: `id` models object identity.
`Entry` defines no `__eq__`, so `==` between entries compares these tags. -/
structure Obj where
  id : Nat
  val : Entry
deriving DecidableEq, Repr

/-- The loop of `Table.__init__`: append `entry.get_deep_copy()` for each
given entry; each copy is a brand-new object, modelled by consecutive fresh
identity tags starting at `fresh`. -/
def attachCopies (fresh : Nat) : List Obj → List Obj
  | [] => []
  | o :: rest => ⟨fresh, o.val.get_deep_copy⟩ :: attachCopies (fresh + 1) rest

/-- `Table`: a shared header and the ordered list of entry references. -/
structure Table where
  header : Header
  entries : List Obj
deriving DecidableEq, Repr

/-- `Table.__init__(header, entries)` with `entries` not `None`. -/
def Table.init (header : Header) (entries : List Obj) (fresh : Nat) : Table :=
  ⟨header, attachCopies fresh entries⟩

/-- `Table.get_header`. -/
def Table.get_header (t : Table) : Header := t.header

/-- `Table.get_column_names`. -/
def Table.get_column_names (t : Table) : List String := t.header.column_names

/-- `Table.get_column_count`. -/
def Table.get_column_count (t : Table) : Nat := t.header.column_names.length

/-- `Table.get_entries`. -/
def Table.get_entries (t : Table) : List Obj := t.entries

/-- `Table.get_entry_count`. -/
def Table.get_entry_count (t : Table) : Nat := t.entries.length

/-- `Table.get_entry`: `self.__entries[index]`, Python subscript semantics. -/
def Table.get_entry (t : Table) (index : Int) : Option Obj := pyGetElem t.entries index

/-- `Table.append_entry`: appends the reference itself (no copy). -/
def Table.append_entry (t : Table) (entry : Obj) : Table := ⟨t.header, t.entries ++ [entry]⟩

/-- `list.insert` index resolution: a negative index counts from the end and
the result is clamped to `[0, len]`; `insert` never raises. -/
def pyInsertIdx (n : Nat) (i : Int) : Nat :=
  if i < 0 then (i + n).toNat else min i.toNat n

/-- `Table.insert_entry`: `self.__entries.insert(index, entry)` (no copy). -/
def Table.insert_entry (t : Table) (index : Int) (entry : Obj) : Table :=
  ⟨t.header, t.entries.insertIdx (pyInsertIdx t.entries.length index) entry⟩

/-- `Table.pop_entry`: `self.__entries.pop(index)` — Python subscript
resolution; `IndexError` (`none`) when out of range, otherwise removes and
returns the element. -/
def Table.pop_entry (t : Table) (index : Int) : Option (Table × Obj) :=
  (pyGetElem t.entries index).map (fun o =>
    (⟨t.header,
      t.entries.eraseIdx ((if index < 0 then index + t.entries.length else index).toNat)⟩, o))

/-- `list.remove(x)`: drop the first element that compares `==` to `x`
(identity, for entries); `none` models the `ValueError` raised when no
element matches. -/
def removeFirstPy (x : Obj) : List Obj → Option (List Obj)
  | [] => none
  | o :: rest => if o.id = x.id then some rest else (removeFirstPy x rest).map (o :: ·)

/-- `Table.remove_entry`: `self.__entries.remove(entry); return entry`. -/
def Table.remove_entry (t : Table) (entry : Obj) : Option (Table × Obj) :=
  (removeFirstPy entry t.entries).map (fun l => (⟨t.header, l⟩, entry))

/-- `Table.get_deep_copy`: `Table(self.__header, self.__entries)`. -/
def Table.get_deep_copy (t : Table) (fresh : Nat) : Table := Table.init t.header t.entries fresh

/-- Failure modes of `CSV_to_table`: `next` on an exhausted reader raises
`StopIteration`; malformed CSV syntax raises the reader's `csv.Error`. -/
inductive PyErr where
  | stopIteration
  | csvError
deriving DecidableEq, Repr

/-- `CSV_to_table`, at the level of the record stream produced by
`csv.reader`: the record list is the embedding's input.  The source opens
the file without `newline=''`, so universal newlines translate a carriage
return inside a quoted field before the reader sees it; the text layer is
therefore inverse to the writer (default dialect) only for records none of
whose fields — header names included — contain `'\r'` (or the `'\n'` and
`'\x22'` handled by quoting).  Any round-trip statement composed from this
embedding must carry that restriction on every field it reproduces.  The
first record becomes the header; every further record `row` becomes
`Entry(values=row)`; an empty stream makes `next(csv_reader)` raise an
uncaught `StopIteration`. -/
def CSV_to_table (records : List (List String)) (fresh : Nat) : Except PyErr Table :=
  match records with
  | [] => .error .stopIteration
  | header_list :: rows =>
      .ok (Table.init ⟨header_list⟩ (rows.map (fun row => ⟨0, Entry.init 0 row⟩)) fresh)

/-- `table_to_CSV`, at the record level: the header record followed by
`entry.get_value_str_from_columns(", ")` for each entry in table order. -/
def table_to_CSV (t : Table) : List (List String) :=
  t.get_column_names :: t.get_entries.map (fun o => o.val.get_value_str_from_columns ", ")

/-- Value equality of tables: same column names and the same entry contents
in the same order (identity tags are bookkeeping, not data). -/
def Table.veq (a b : Table) : Prop :=
  a.header = b.header ∧ a.entries.map Obj.val = b.entries.map Obj.val

/-- The common shape of the column loops of `get_deep_copy` and `mergeStep`:
fold `appendAll` at columns `0, …, k-1`, column `c` receiving the values
`g c`.  Both loops are definitionally instances of this fold. -/
def colFold (g : Nat → List String) (k : Nat) (acc : Entry) : Entry :=
  (List.range k).foldl (fun a c => appendAll a c (g c)) acc

/-- Cell-set invariant of an entry: no column's dictionary contains the empty
string, and each column's keys are pairwise distinct. -/
def EntryInv (e : Entry) : Prop :=
  ∀ cell ∈ e.cells, "" ∉ cell ∧ cell.Nodup

instance : DecidablePred EntryInv := fun e =>
  inferInstanceAs (Decidable (∀ cell ∈ e.cells, "" ∉ cell ∧ cell.Nodup))

instance (a b : Table) : Decidable (a.veq b) :=
  inferInstanceAs (Decidable (_ ∧ _))

/-- Entries reachable through the public `Entry` operations: construction
from values or from a length, `append_value_to_column`,
`set_value_at_column`, `get_deep_copy`, and `merge_entries` (whose other
entries must themselves be reachable). -/
inductive ReachableEntry : Entry → Prop where
  | init (length : Nat) (values : List String) : ReachableEntry (Entry.init length values)
  | append (e : Entry) (i : Int) (v : String) :
      ReachableEntry e → ReachableEntry (e.append_value_to_column i v)
  | set (e : Entry) (i : Int) (v : String) :
      ReachableEntry e → ReachableEntry (e.set_value_at_column i v)
  | copy (e : Entry) : ReachableEntry e → ReachableEntry e.get_deep_copy
  | merge (e : Entry) (others : List Entry) :
      ReachableEntry e → (∀ o ∈ others, ReachableEntry o) →
      ReachableEntry (e.merge_entries others)

/-! ### Basic lemmas about the embedded operations -/

theorem dictUpdate_not_empty {d : List String} {v : String} (hv : v ≠ "") (hd : "" ∉ d) :
    "" ∉ dictUpdate d v := by
  unfold dictUpdate
  split
  · exact hd
  · simp only [List.mem_append, List.mem_singleton]
    rintro (h | h)
    · exact hd h
    · exact hv h.symm

theorem dictUpdate_nodup {d : List String} {v : String} (hd : d.Nodup) :
    (dictUpdate d v).Nodup := by
  unfold dictUpdate
  split
  · exact hd
  · next hmem =>
    rw [List.nodup_append]
    refine ⟨hd, List.nodup_singleton v, ?_⟩
    intro a ha hb
    rw [List.mem_singleton] at hb
    subst hb
    exact hmem ha

theorem dictUpdate_mem_self (d : List String) (v : String) : v ∈ dictUpdate d v := by
  unfold dictUpdate
  split
  · assumption
  · simp

theorem dictUpdate_of_mem {d : List String} {v : String} (h : v ∈ d) : dictUpdate d v = d := by
  unfold dictUpdate
  simp [h]

theorem foldl_dictUpdate_fresh (l : List String) :
    ∀ d : List String, (∀ v ∈ l, v ∉ d) → l.Nodup → l.foldl dictUpdate d = d ++ l := by
  induction l with
  | nil => intro d _ _; simp
  | cons x xs ih =>
    intro d hfresh hnd
    have hx : x ∉ d := hfresh x (by simp)
    have hstep : dictUpdate d x = d ++ [x] := by unfold dictUpdate; simp [hx]
    have hfresh' : ∀ v ∈ xs, v ∉ d ++ [x] := by
      intro v hv
      simp only [List.mem_append, List.mem_singleton]
      rintro (h | h)
      · exact hfresh v (by simp [hv]) h
      · subst h; exact (List.nodup_cons.mp hnd).1 hv
    have := ih (d ++ [x]) hfresh' (List.nodup_cons.mp hnd).2
    simp only [List.foldl_cons, hstep, this, List.append_assoc, List.singleton_append]

theorem Entry.init_cells_zero (values : List String) :
    (Entry.init 0 values).cells = values.map (fun v => if v = "" then [] else [v]) := by
  cases values <;> rfl

theorem Entry.init_empty_cells (n : Nat) :
    (Entry.init n []).cells = List.replicate n [] := by
  simp [Entry.init, List.map_replicate]

theorem Entry.init_empty_count (n : Nat) : (Entry.init n []).get_column_count = n := by
  simp [Entry.get_column_count, Entry.init_empty_cells]

theorem Entry.init_empty_valuesAt (n c : Nat) : (Entry.init n []).valuesAt c = [] := by
  simp only [Entry.valuesAt, Entry.init_empty_cells, List.getElem?_replicate]
  split <;> simp

theorem Entry.valuesAt_eq_getElem (e : Entry) (c : Nat) (h : c < e.get_column_count) :
    e.valuesAt c = e.cells.get ⟨c, h⟩ := by
  simp [Entry.valuesAt, List.getElem?_eq_getElem h]

theorem Entry.valuesAt_mem (e : Entry) (c : Nat) (h : c < e.get_column_count) :
    e.valuesAt c ∈ e.cells := by
  rw [Entry.valuesAt_eq_getElem e c h]
  exact List.getElem_mem _

theorem Entry.get_values_from_column_in_range (e : Entry) (c : Nat)
    (h : c < e.get_column_count) :
    e.get_values_from_column (c : Int) = some (e.valuesAt c) := by
  have h' : c < e.cells.length := h
  have hc : ¬ ((c : Int) < 0) := by omega
  have hlt : (0 : Int) ≤ (c : Int) ∧ (c : Int) < (e.cells.length : Int) := ⟨by omega, by omega⟩
  simp only [Entry.get_values_from_column, pyGetElem]
  rw [if_neg hc, if_pos hlt, Int.toNat_natCast, Entry.valuesAt,
    List.getElem?_eq_getElem h']
  rfl

theorem Entry.get_values_from_column_getD (e : Entry) (c : Nat) :
    (e.get_values_from_column (c : Int)).getD [] = e.valuesAt c := by
  by_cases h : c < e.get_column_count
  · rw [Entry.get_values_from_column_in_range e c h]; rfl
  · have h' : e.cells.length ≤ c := Nat.le_of_not_lt h
    have hc : ¬ ((c : Int) < 0) := by omega
    have hnot : ¬ ((0 : Int) ≤ (c : Int) ∧ (c : Int) < (e.cells.length : Int)) := by
      intro hand; omega
    simp only [Entry.get_values_from_column, pyGetElem]
    rw [if_neg hc, if_neg hnot, Entry.valuesAt, List.getElem?_eq_none h']

theorem Entry.append_count (e : Entry) (i : Int) (v : String) :
    (e.append_value_to_column i v).get_column_count = e.get_column_count := by
  unfold Entry.append_value_to_column
  split
  · rfl
  · split
    · rfl
    · simp [Entry.get_column_count]

theorem Entry.set_count (e : Entry) (i : Int) (v : String) :
    (e.set_value_at_column i v).get_column_count = e.get_column_count := by
  unfold Entry.set_value_at_column
  split
  · rfl
  · split
    · rfl
    · simp [Entry.get_column_count]

theorem Entry.append_out_of_range (e : Entry) (i : Int) (v : String)
    (h : i < 0 ∨ (e.get_column_count : Int) ≤ i) :
    e.append_value_to_column i v = e := by
  unfold Entry.append_value_to_column
  rw [if_pos h]

theorem Entry.set_out_of_range (e : Entry) (i : Int) (v : String)
    (h : i < 0 ∨ (e.get_column_count : Int) ≤ i) :
    e.set_value_at_column i v = e := by
  unfold Entry.set_value_at_column
  rw [if_pos h]

theorem Entry.append_empty_string (e : Entry) (i : Int) :
    e.append_value_to_column i "" = e := by
  unfold Entry.append_value_to_column
  split
  · rfl
  · rw [if_pos rfl]

theorem Entry.set_empty_string (e : Entry) (i : Int) :
    e.set_value_at_column i "" = e := by
  unfold Entry.set_value_at_column
  split
  · rfl
  · rw [if_pos rfl]

theorem Entry.append_nat_cells (e : Entry) (c : Nat) (v : String)
    (h : c < e.get_column_count) (hv : v ≠ "") :
    (e.append_value_to_column (c : Int) v).cells
      = e.cells.set c (dictUpdate (e.valuesAt c) v) := by
  have hguard : ¬ ((c : Int) < 0 ∨ (e.get_column_count : Int) ≤ (c : Int)) := by
    rw [not_or]; exact ⟨by omega, by omega⟩
  unfold Entry.append_value_to_column
  rw [if_neg hguard, if_neg hv, Int.toNat_natCast]

theorem Entry.set_nat_cells (e : Entry) (c : Nat) (v : String)
    (h : c < e.get_column_count) (hv : v ≠ "") :
    (e.set_value_at_column (c : Int) v).cells = e.cells.set c [v] := by
  have hguard : ¬ ((c : Int) < 0 ∨ (e.get_column_count : Int) ≤ (c : Int)) := by
    rw [not_or]; exact ⟨by omega, by omega⟩
  unfold Entry.set_value_at_column
  rw [if_neg hguard, if_neg hv, Int.toNat_natCast]

theorem Entry.append_valuesAt_ne (e : Entry) (c c' : Nat) (v : String) (h : c' ≠ c) :
    (e.append_value_to_column (c : Int) v).valuesAt c' = e.valuesAt c' := by
  unfold Entry.append_value_to_column
  split
  · rfl
  · split
    · rfl
    · simp only [Entry.valuesAt, Int.toNat_natCast]
      rw [List.getElem?_set_ne (Ne.symm h)]

theorem Entry.append_valuesAt_self (e : Entry) (c : Nat) (v : String)
    (h : c < e.get_column_count) (hv : v ≠ "") :
    (e.append_value_to_column (c : Int) v).valuesAt c = dictUpdate (e.valuesAt c) v := by
  have h' : c < e.cells.length := h
  simp only [Entry.valuesAt, Entry.append_nat_cells e c v h hv]
  rw [List.getElem?_set_self h']
  rfl

theorem Entry.set_valuesAt_self (e : Entry) (c : Nat) (v : String)
    (h : c < e.get_column_count) (hv : v ≠ "") :
    (e.set_value_at_column (c : Int) v).valuesAt c = [v] := by
  have h' : c < e.cells.length := h
  simp only [Entry.valuesAt, Entry.set_nat_cells e c v h hv]
  rw [List.getElem?_set_self h']
  rfl

theorem Entry.append_inv (e : Entry) (i : Int) (v : String) (he : EntryInv e) :
    EntryInv (e.append_value_to_column i v) := by
  unfold Entry.append_value_to_column
  split
  · exact he
  · split
    · exact he
    · next hguard hv =>
      intro cell hcell
      rcases List.mem_or_eq_of_mem_set hcell with hmem | heq
      · exact he cell hmem
      · subst heq
        have hin : i.toNat < e.get_column_count := by
          rw [not_or] at hguard
          simp only [Entry.get_column_count] at *
          omega
        have hprev := he _ (Entry.valuesAt_mem e i.toNat hin)
        exact ⟨dictUpdate_not_empty hv hprev.1, dictUpdate_nodup hprev.2⟩

theorem Entry.set_inv (e : Entry) (i : Int) (v : String) (he : EntryInv e) :
    EntryInv (e.set_value_at_column i v) := by
  unfold Entry.set_value_at_column
  split
  · exact he
  · split
    · exact he
    · next hguard hv =>
      intro cell hcell
      rcases List.mem_or_eq_of_mem_set hcell with hmem | heq
      · exact he cell hmem
      · subst heq
        refine ⟨?_, List.nodup_singleton v⟩
        rw [List.mem_singleton]
        exact fun h0 => hv h0.symm

theorem Entry.init_inv (length : Nat) (values : List String) :
    EntryInv (Entry.init length values) := by
  intro cell hcell
  simp only [Entry.init, List.mem_map] at hcell
  obtain ⟨v, -, rfl⟩ := hcell
  split
  · exact ⟨by simp, List.nodup_nil⟩
  · next hv =>
    refine ⟨?_, List.nodup_singleton v⟩
    rw [List.mem_singleton]
    exact fun h0 => hv h0.symm

theorem appendAll_count (c : Nat) (l : List String) (acc : Entry) :
    (appendAll acc c l).get_column_count = acc.get_column_count := by
  induction l generalizing acc with
  | nil => rfl
  | cons x xs ih =>
    show (appendAll (acc.append_value_to_column (c : Int) x) c xs).get_column_count = _
    rw [ih, Entry.append_count]

theorem appendAll_valuesAt_ne (c c' : Nat) (l : List String) (acc : Entry) (h : c' ≠ c) :
    (appendAll acc c l).valuesAt c' = acc.valuesAt c' := by
  induction l generalizing acc with
  | nil => rfl
  | cons x xs ih =>
    show (appendAll (acc.append_value_to_column (c : Int) x) c xs).valuesAt c' = _
    rw [ih, Entry.append_valuesAt_ne acc c c' x h]

theorem appendAll_valuesAt_self (c : Nat) (l : List String) (acc : Entry)
    (h : c < acc.get_column_count) (hl : ∀ v ∈ l, v ≠ "") :
    (appendAll acc c l).valuesAt c = l.foldl dictUpdate (acc.valuesAt c) := by
  induction l generalizing acc with
  | nil => rfl
  | cons x xs ih =>
    show (appendAll (acc.append_value_to_column (c : Int) x) c xs).valuesAt c = _
    have hx : x ≠ "" := hl x (by simp)
    have hcount : c < (acc.append_value_to_column (c : Int) x).get_column_count := by
      rw [Entry.append_count]; exact h
    rw [ih _ hcount (fun v hv => hl v (by simp [hv])),
      Entry.append_valuesAt_self acc c x h hx, List.foldl_cons]

theorem appendAll_inv (c : Nat) (l : List String) (acc : Entry) (h : EntryInv acc) :
    EntryInv (appendAll acc c l) := by
  induction l generalizing acc with
  | nil => exact h
  | cons x xs ih => exact ih _ (Entry.append_inv acc _ x h)

theorem colFold_succ (g : Nat → List String) (k : Nat) (acc : Entry) :
    colFold g (k + 1) acc = appendAll (colFold g k acc) k (g k) := by
  unfold colFold
  rw [List.range_succ, List.foldl_append]
  rfl

theorem colFold_count (g : Nat → List String) (k : Nat) (acc : Entry) :
    (colFold g k acc).get_column_count = acc.get_column_count := by
  induction k with
  | zero => rfl
  | succ m ih => rw [colFold_succ, appendAll_count, ih]

theorem colFold_valuesAt_ge (g : Nat → List String) (k : Nat) (acc : Entry) (c : Nat)
    (h : k ≤ c) : (colFold g k acc).valuesAt c = acc.valuesAt c := by
  induction k with
  | zero => rfl
  | succ m ih =>
    rw [colFold_succ, appendAll_valuesAt_ne m c (g m) _ (by omega), ih (by omega)]

theorem colFold_valuesAt_lt (g : Nat → List String) (k : Nat) (acc : Entry) (c : Nat)
    (hc : c < k) (hcount : c < acc.get_column_count) (hg : ∀ v ∈ g c, v ≠ "") :
    (colFold g k acc).valuesAt c = (g c).foldl dictUpdate (acc.valuesAt c) := by
  induction k with
  | zero => omega
  | succ m ih =>
    rw [colFold_succ]
    by_cases hcm : c = m
    · subst hcm
      rw [appendAll_valuesAt_self c (g c) _ (by rw [colFold_count]; exact hcount) hg,
        colFold_valuesAt_ge g c acc c (Nat.le_refl c)]
    · rw [appendAll_valuesAt_ne m c (g m) _ hcm, ih (by omega)]

theorem colFold_inv (g : Nat → List String) (k : Nat) (acc : Entry) (h : EntryInv acc) :
    EntryInv (colFold g k acc) := by
  induction k with
  | zero => exact h
  | succ m ih => rw [colFold_succ]; exact appendAll_inv m (g m) _ ih

theorem Entry.get_deep_copy_eq (e : Entry) :
    e.get_deep_copy = colFold (fun c => (e.get_values_from_column (c : Int)).getD [])
      e.get_column_count (Entry.init e.get_column_count []) := rfl

theorem mergeStep_eq (n : Nat) (acc entry : Entry) :
    mergeStep n acc entry
      = colFold (fun c => (entry.get_values_from_column (c : Int)).getD [])
        (min n entry.get_column_count) acc := rfl

theorem Entry.get_deep_copy_count (e : Entry) :
    e.get_deep_copy.get_column_count = e.get_column_count := by
  rw [Entry.get_deep_copy_eq, colFold_count, Entry.init_empty_count]

theorem Entry.get_deep_copy_inv (e : Entry) : EntryInv e.get_deep_copy := by
  rw [Entry.get_deep_copy_eq]
  exact colFold_inv _ _ _ (Entry.init_inv _ [])

theorem Entry.get_deep_copy_valuesAt (e : Entry) (c : Nat) (hc : c < e.get_column_count)
    (he : EntryInv e) : e.get_deep_copy.valuesAt c = e.valuesAt c := by
  have hcell := he _ (Entry.valuesAt_mem e c hc)
  rw [Entry.get_deep_copy_eq]
  rw [colFold_valuesAt_lt _ _ _ c hc (by rw [Entry.init_empty_count]; exact hc)
    (by rw [Entry.get_values_from_column_getD]
        intro v hv h0
        exact hcell.1 (h0 ▸ hv))]
  rw [Entry.get_values_from_column_getD, Entry.init_empty_valuesAt,
    foldl_dictUpdate_fresh _ [] (by simp) hcell.2, List.nil_append]

theorem Entry.ext_valuesAt {a b : Entry} (hcount : a.get_column_count = b.get_column_count)
    (h : ∀ c < a.get_column_count, a.valuesAt c = b.valuesAt c) : a = b := by
  simp only [Entry.get_column_count] at hcount
  have hcells : a.cells = b.cells := by
    apply List.ext_getElem?
    intro n
    by_cases hn : n < a.cells.length
    · have h1 := h n hn
      rw [Entry.valuesAt_eq_getElem a n hn,
        Entry.valuesAt_eq_getElem b n (show n < b.cells.length from hcount ▸ hn)] at h1
      simp only [List.get_eq_getElem] at h1
      rw [List.getElem?_eq_getElem hn, List.getElem?_eq_getElem
        (show n < b.cells.length by omega), h1]
    · rw [List.getElem?_eq_none (by omega), List.getElem?_eq_none (by omega)]
  cases a
  cases b
  simpa using hcells

theorem Entry.get_deep_copy_id (e : Entry) (he : EntryInv e) : e.get_deep_copy = e := by
  apply Entry.ext_valuesAt (Entry.get_deep_copy_count e)
  intro c hc
  rw [Entry.get_deep_copy_count] at hc
  exact Entry.get_deep_copy_valuesAt e c hc he

theorem mergeStep_count (n : Nat) (acc entry : Entry) :
    (mergeStep n acc entry).get_column_count = acc.get_column_count := by
  rw [mergeStep_eq, colFold_count]

theorem mergeStep_inv (n : Nat) (acc entry : Entry) (h : EntryInv acc) :
    EntryInv (mergeStep n acc entry) := by
  rw [mergeStep_eq]
  exact colFold_inv _ _ _ h

theorem foldl_mergeStep_count (n : Nat) (others : List Entry) (acc : Entry) :
    (others.foldl (mergeStep n) acc).get_column_count = acc.get_column_count := by
  induction others generalizing acc with
  | nil => rfl
  | cons x xs ih => rw [List.foldl_cons, ih, mergeStep_count]

theorem foldl_mergeStep_inv (n : Nat) (others : List Entry) (acc : Entry)
    (h : EntryInv acc) : EntryInv (others.foldl (mergeStep n) acc) := by
  induction others generalizing acc with
  | nil => exact h
  | cons x xs ih => exact ih _ (mergeStep_inv n acc x h)

theorem merge_entries_inv (e : Entry) (others : List Entry) :
    EntryInv (e.merge_entries others) :=
  foldl_mergeStep_inv _ others _ (Entry.get_deep_copy_inv e)

/-! ### Claim theorems -/

/-- C3: every entry reachable through any sequence of the public operations
(construction from values or length, `append_value_to_column`,
`set_value_at_column`, `merge_entries`, `get_deep_copy`) satisfies the
cell-set invariant: no column ever contains the empty string and each
column's values are pairwise distinct. -/
theorem reachable_entry_inv (e : Entry) (h : ReachableEntry e) : EntryInv e := by
  induction h with
  | init length values => exact Entry.init_inv length values
  | append e i v _ ih => exact Entry.append_inv e i v ih
  | set e i v _ ih => exact Entry.set_inv e i v ih
  | copy e _ _ => exact Entry.get_deep_copy_inv e
  | merge e others _ _ _ _ => exact merge_entries_inv e others

/-- Witness for C3: the invariant holds at a concretely constructed entry
(note the duplicate and the empty string among the requested values). -/
theorem reachable_entry_inv_witness : EntryInv (Entry.init 0 ["a", "", "a"]) :=
  reachable_entry_inv _ (ReachableEntry.init 0 ["a", "", "a"])

/-- C6: for every entry, in-range column index `c` and value `v`, setting a
non-empty `v` makes `get_values_from_column(c)` return exactly `[v]`, and
setting the empty string leaves the column's prior value set unchanged. -/
theorem set_value_at_column_post (e : Entry) (c : Nat) (v : String)
    (h : c < e.get_column_count) :
    (v ≠ "" → (e.set_value_at_column (c : Int) v).get_values_from_column (c : Int)
      = some [v])
    ∧ (v = "" → (e.set_value_at_column (c : Int) v).get_values_from_column (c : Int)
      = e.get_values_from_column (c : Int)) := by
  constructor
  · intro hv
    have hcount : c < (e.set_value_at_column (c : Int) v).get_column_count := by
      rw [Entry.set_count]; exact h
    rw [Entry.get_values_from_column_in_range _ c hcount,
      Entry.set_valuesAt_self e c v h hv]
  · intro hv
    subst hv
    rw [Entry.set_empty_string]

/-- Witness for C6 at a concrete entry, column and value. -/
theorem set_value_at_column_post_witness :
    ((Entry.init 0 ["a", "b"]).set_value_at_column ((1 : Nat) : Int) "z").get_values_from_column
      ((1 : Nat) : Int) = some ["z"] :=
  (set_value_at_column_post (Entry.init 0 ["a", "b"]) 1 "z" (by decide)).1 (by decide)

/-- C7: appending the same non-empty value to an in-range column twice
produces exactly the entry obtained by appending it once — in particular the
column's value list, order included, is identical. -/
theorem append_value_idempotent (e : Entry) (c : Nat) (v : String)
    (h : c < e.get_column_count) (hv : v ≠ "") :
    (e.append_value_to_column (c : Int) v).append_value_to_column (c : Int) v
      = e.append_value_to_column (c : Int) v := by
  apply Entry.ext_valuesAt
  · rw [Entry.append_count]
  · intro c' hc'
    by_cases hcc : c' = c
    · subst hcc
      have h1 : c' < (e.append_value_to_column (c' : Int) v).get_column_count := by
        rw [Entry.append_count]; exact h
      rw [Entry.append_valuesAt_self _ c' v h1 hv, Entry.append_valuesAt_self e c' v h hv]
      exact dictUpdate_of_mem (dictUpdate_mem_self _ v)
    · rw [Entry.append_valuesAt_ne _ c c' v hcc]

/-- Witness for C7 at a concrete entry, column and value. -/
theorem append_value_idempotent_witness :
    ((Entry.init 2 []).append_value_to_column ((0 : Nat) : Int) "x").append_value_to_column
        ((0 : Nat) : Int) "x"
      = (Entry.init 2 []).append_value_to_column ((0 : Nat) : Int) "x" :=
  append_value_idempotent (Entry.init 2 []) 0 "x" (by decide) (by decide)

/-- C10: on a record stream with no records at all, `CSV_to_table` fails with
the uncaught `StopIteration` raised by `next(csv_reader)` on the empty
reader: no table is returned, and the error is not a CSV-format error. -/
theorem csv_to_table_empty_input (fresh : Nat) :
    CSV_to_table [] fresh = Except.error PyErr.stopIteration := rfl

/-- C9: bounds asymmetry of the column accessors.  `get_values_from_column`
has no bounds check of its own, so a negative index `i` with
`-count ≤ i < 0` successfully resolves to column `count + i`, and failure
(`IndexError`) occurs exactly when `i < -count` or `i ≥ count`; by contrast
`append_value_to_column` and `set_value_at_column` silently ignore every
negative index and `get_value_str_from_column` returns `""` for it. -/
theorem column_access_bounds_asymmetry (e : Entry) (i : Int) (v sep : String) :
    (-(e.get_column_count : Int) ≤ i → i < 0 →
      e.get_values_from_column i
        = e.get_values_from_column ((e.get_column_count : Int) + i))
    ∧ (-(e.get_column_count : Int) ≤ i → i < 0 →
      ∃ l, e.get_values_from_column i = some l)
    ∧ ((i < -(e.get_column_count : Int) ∨ (e.get_column_count : Int) ≤ i) →
      e.get_values_from_column i = none)
    ∧ (i < 0 →
      e.append_value_to_column i v = e
      ∧ e.set_value_at_column i v = e
      ∧ e.get_value_str_from_column i sep = "") := by
  refine ⟨?_, ?_, ?_, ?_⟩
  · intro h1 h2
    simp only [Entry.get_values_from_column, pyGetElem, Entry.get_column_count] at h1 h2 ⊢
    rw [if_pos h2, if_neg (show ¬ ((e.cells.length : Int) + i < 0) by omega)]
    rw [if_pos (show (0 : Int) ≤ i + e.cells.length
        ∧ i + e.cells.length < (e.cells.length : Int) by constructor <;> omega)]
    rw [if_pos (show (0 : Int) ≤ (e.cells.length : Int) + i
        ∧ (e.cells.length : Int) + i < (e.cells.length : Int) by constructor <;> omega)]
    rw [Int.add_comm]
  · intro h1 h2
    simp only [Entry.get_values_from_column, pyGetElem, Entry.get_column_count] at h1 h2 ⊢
    rw [if_pos h2]
    rw [if_pos (show (0 : Int) ≤ i + e.cells.length
        ∧ i + e.cells.length < (e.cells.length : Int) by constructor <;> omega)]
    exact ⟨_, List.getElem?_eq_getElem (show (i + e.cells.length).toNat < e.cells.length
      by omega)⟩
  · intro h
    simp only [Entry.get_values_from_column, pyGetElem, Entry.get_column_count] at h ⊢
    by_cases hlt : i < 0
    · rw [if_pos hlt, if_neg (by omega)]
    · rw [if_neg hlt, if_neg (by omega)]
  · intro h
    refine ⟨Entry.append_out_of_range e i v (Or.inl h),
      Entry.set_out_of_range e i v (Or.inl h), ?_⟩
    unfold Entry.get_value_str_from_column
    rw [if_pos (Or.inl h)]

/-- Witness for C9 at a concrete two-column entry and index `-1`. -/
theorem column_access_bounds_asymmetry_witness :
    (Entry.init 0 ["a", "b"]).get_values_from_column (-1)
      = (Entry.init 0 ["a", "b"]).get_values_from_column
        (((Entry.init 0 ["a", "b"]).get_column_count : Int) + (-1)) :=
  (column_access_bounds_asymmetry (Entry.init 0 ["a", "b"]) (-1) "v" ", ").1
    (by decide) (by decide)

/-- C2: `merge_entries` is the fold of one merge step per other entry over
the deep copy of `self`; an empty list yields the plain deep copy; the
result keeps `self`'s full column count; a step leaves every column at or
beyond `min(self count, other count)` untouched, and below that minimum it
appends the other entry's values in insertion order under the uniqueness /
empty-string no-op rules of `dictUpdate`-style appending. -/
theorem merge_entries_contract (self : Entry) (others : List Entry) :
    self.merge_entries others
      = others.foldl (mergeStep self.get_column_count) self.get_deep_copy
    ∧ self.merge_entries [] = self.get_deep_copy
    ∧ (self.merge_entries others).get_column_count = self.get_column_count
    ∧ (∀ acc entry : Entry, ∀ c : Nat,
        min self.get_column_count entry.get_column_count ≤ c →
        (mergeStep self.get_column_count acc entry).valuesAt c = acc.valuesAt c)
    ∧ (∀ acc entry : Entry, ∀ c : Nat,
        c < min self.get_column_count entry.get_column_count →
        c < acc.get_column_count → (∀ v ∈ entry.valuesAt c, v ≠ "") →
        (mergeStep self.get_column_count acc entry).valuesAt c
          = (entry.valuesAt c).foldl dictUpdate (acc.valuesAt c)) := by
  refine ⟨rfl, rfl, ?_, ?_, ?_⟩
  · show (others.foldl (mergeStep self.get_column_count) self.get_deep_copy).get_column_count
      = self.get_column_count
    rw [foldl_mergeStep_count, Entry.get_deep_copy_count]
  · intro acc entry c hc
    rw [mergeStep_eq, colFold_valuesAt_ge _ _ _ _ hc]
  · intro acc entry c hc hcount hne
    rw [mergeStep_eq, colFold_valuesAt_lt _ _ _ c hc hcount
      (by rw [Entry.get_values_from_column_getD]; exact hne),
      Entry.get_values_from_column_getD]

/-- Witness for C2: merging a 2-column entry into a 3-column entry leaves
column 2 of the accumulator untouched. -/
theorem merge_entries_contract_witness :
    (mergeStep (Entry.init 0 ["a", "b", "c"]).get_column_count
        (Entry.init 0 ["a", "b", "c"]).get_deep_copy (Entry.init 0 ["x", "y"])).valuesAt 2
      = (Entry.init 0 ["a", "b", "c"]).get_deep_copy.valuesAt 2 :=
  ((merge_entries_contract (Entry.init 0 ["a", "b", "c"])
    [Entry.init 0 ["x", "y"]]).2.2.2.1) _ _ 2 (by decide)

theorem removeFirstPy_none_iff (x : Obj) (l : List Obj) :
    removeFirstPy x l = none ↔ ∀ o ∈ l, o.id ≠ x.id := by
  induction l with
  | nil => simp [removeFirstPy]
  | cons a rest ih =>
    unfold removeFirstPy
    by_cases h : a.id = x.id
    · rw [if_pos h]
      simp only [List.mem_cons]
      constructor
      · intro hcontra
        exact absurd hcontra (by simp)
      · intro hall
        exact absurd h (hall a (Or.inl rfl))
    · rw [if_neg h]
      rw [Option.map_eq_none']
      rw [ih]
      constructor
      · intro hall o ho
        rcases List.mem_cons.mp ho with rfl | ho'
        · exact h
        · exact hall o ho'
      · intro hall o ho
        exact hall o (List.mem_cons_of_mem a ho)

theorem removeFirstPy_some (x : Obj) (l r : List Obj)
    (h : removeFirstPy x l = some r) :
    ∃ pre post m, l = pre ++ m :: post ∧ m.id = x.id ∧ (∀ o ∈ pre, o.id ≠ x.id)
      ∧ r = pre ++ post := by
  induction l generalizing r with
  | nil => simp [removeFirstPy] at h
  | cons a rest ih =>
    unfold removeFirstPy at h
    by_cases ha : a.id = x.id
    · rw [if_pos ha] at h
      refine ⟨[], r, a, ?_, ha, by simp, by simp⟩
      simpa using Option.some_injective _ h
    · rw [if_neg ha] at h
      obtain ⟨r', hr', rfl⟩ : ∃ r', removeFirstPy x rest = some r' ∧ r = a :: r' := by
        cases hrec : removeFirstPy x rest with
        | none => rw [hrec] at h; simp at h
        | some rr =>
          rw [hrec] at h
          simp only [Option.map_some'] at h
          exact ⟨rr, rfl, (Option.some_injective _ h).symm⟩
      obtain ⟨pre, post, m, h1, h2, h3, h4⟩ := ih r' hr'
      refine ⟨a :: pre, post, m, by simp [h1], h2, ?_, by simp [h4]⟩
      intro o ho
      rcases List.mem_cons.mp ho with rfl | ho'
      · exact ha
      · exact h3 o ho'

/-- C4 counterexample: `Table.__init__` deep-copies its entries, so the
table built from entry object `⟨0, …⟩` stores a distinct (fresh) object that
is value-equal to it; `remove_entry` on the original argument nevertheless
fails (Python `==` on entries is identity), while the claim requires the
value-equal first entry to be removed. -/
theorem remove_entry_by_value_counterexample :
    ((Table.init ⟨["A"]⟩ [⟨0, Entry.mk [["a"]]⟩] 1).entries.map Obj.val
      = [Entry.mk [["a"]]])
    ∧ (Table.init ⟨["A"]⟩ [⟨0, Entry.mk [["a"]]⟩] 1).remove_entry ⟨0, Entry.mk [["a"]]⟩
      = none
    ∧ (Table.init ⟨["A"]⟩ [⟨0, Entry.mk [["a"]]⟩] 1).get_entry_count = 1 := by
  decide

/-- C4 amended: `remove_entry` removes the first entry that is the very same
object as the argument (Python identity — `Entry` defines no value
equality) and returns the argument; when no stored entry is that object it
fails with `ValueError`, leaving the table's entries (hence the entry
count) unchanged. -/
theorem remove_entry_identity (t : Table) (x : Obj) :
    (t.remove_entry x = none ↔ ∀ o ∈ t.entries, o.id ≠ x.id)
    ∧ (∀ t' y, t.remove_entry x = some (t', y) →
      y = x ∧ t'.header = t.header
      ∧ ∃ pre post m, t.entries = pre ++ m :: post ∧ m.id = x.id
        ∧ (∀ o ∈ pre, o.id ≠ x.id) ∧ t'.entries = pre ++ post) := by
  constructor
  · unfold Table.remove_entry
    rw [Option.map_eq_none']
    exact removeFirstPy_none_iff x t.entries
  · intro t' y h
    unfold Table.remove_entry at h
    obtain ⟨l, hl, heq⟩ : ∃ l, removeFirstPy x t.entries = some l
        ∧ (⟨⟨t.header, l⟩, x⟩ : Table × Obj) = (t', y) := by
      cases hrec : removeFirstPy x t.entries with
      | none => rw [hrec] at h; simp at h
      | some l =>
        rw [hrec] at h
        simp only [Option.map_some'] at h
        exact ⟨l, rfl, Option.some_injective _ h⟩
    obtain ⟨pre, post, m, h1, h2, h3, h4⟩ := removeFirstPy_some x t.entries l hl
    cases heq
    exact ⟨rfl, rfl, pre, post, m, h1, h2, h3, h4⟩

/-- Witness for C4 (amended): removing from a table that does not hold the
argument object fails. -/
theorem remove_entry_identity_witness :
    (Table.mk ⟨["A"]⟩ []).remove_entry ⟨5, Entry.mk []⟩ = none :=
  (remove_entry_identity (Table.mk ⟨["A"]⟩ []) ⟨5, Entry.mk []⟩).1.mpr (by decide)

theorem pyGetElem_none_iff {α : Type} (l : List α) (i : Int) :
    pyGetElem l i = none ↔ (i < -(l.length : Int) ∨ (l.length : Int) ≤ i) := by
  simp only [pyGetElem]
  by_cases hlt : i < 0
  · rw [if_pos hlt]
    by_cases hg : (0 : Int) ≤ i + l.length ∧ i + l.length < (l.length : Int)
    · rw [if_pos hg,
        List.getElem?_eq_getElem (show (i + l.length).toNat < l.length by omega)]
      constructor
      · intro h
        exact absurd h (by simp)
      · intro h
        exact absurd h (by omega)
    · rw [if_neg hg]
      rw [not_and_or] at hg
      exact ⟨fun _ => by omega, fun _ => rfl⟩
  · rw [if_neg hlt]
    by_cases hg : (0 : Int) ≤ i ∧ i < (l.length : Int)
    · rw [if_pos hg, List.getElem?_eq_getElem (show i.toNat < l.length by omega)]
      constructor
      · intro h
        exact absurd h (by simp)
      · intro h
        exact absurd h (by omega)
    · rw [if_neg hg]
      rw [not_and_or] at hg
      exact ⟨fun _ => by omega, fun _ => rfl⟩

theorem pyGetElem_neg {α : Type} (l : List α) (i : Int) (h1 : -(l.length : Int) ≤ i)
    (h2 : i < 0) : pyGetElem l i = pyGetElem l ((l.length : Int) + i) := by
  simp only [pyGetElem]
  rw [if_pos h2, if_neg (show ¬ ((l.length : Int) + i < 0) by omega)]
  rw [if_pos (show (0 : Int) ≤ i + l.length ∧ i + l.length < (l.length : Int) by
    constructor <;> omega)]
  rw [if_pos (show (0 : Int) ≤ (l.length : Int) + i
    ∧ (l.length : Int) + i < (l.length : Int) by constructor <;> omega)]
  rw [Int.add_comm]

theorem pyInsertIdx_le (n : Nat) (i : Int) : pyInsertIdx n i ≤ n := by
  unfold pyInsertIdx
  split
  · omega
  · omega

/-- C5 counterexample: on a one-entry table, index `-1` lies outside
`[0, entryCount())` yet `get_entry (-1)` succeeds, returning the last entry
by Python negative indexing, where the claim requires an out-of-range
failure. -/
theorem index_bounds_counterexample :
    (Table.mk ⟨["A"]⟩ [⟨0, Entry.mk [["a"]]⟩]).get_entry (-1)
      = some ⟨0, Entry.mk [["a"]]⟩ := by decide

/-- C5 amended: the index-based table operations follow Python list
semantics — `get_entry` and `pop_entry` fail exactly when the index is below
`-entryCount()` or at/after `entryCount()`, an in-range negative index
resolving to `entryCount() + index`; `insert_entry` never fails: its index
is clamped to `[0, entryCount()]`, insertion at `entryCount()` being
append-equivalent. -/
theorem index_ops_python_semantics (t : Table) (i : Int) (o : Obj) :
    (t.get_entry i = none
      ↔ (i < -(t.get_entry_count : Int) ∨ (t.get_entry_count : Int) ≤ i))
    ∧ (-(t.get_entry_count : Int) ≤ i → i < 0 →
      t.get_entry i = t.get_entry ((t.get_entry_count : Int) + i))
    ∧ (t.pop_entry i = none
      ↔ (i < -(t.get_entry_count : Int) ∨ (t.get_entry_count : Int) ≤ i))
    ∧ (t.insert_entry i o).get_entry_count = t.get_entry_count + 1
    ∧ (0 ≤ i → i ≤ (t.get_entry_count : Int) →
      (t.insert_entry i o).entries = t.entries.insertIdx i.toNat o) := by
  refine ⟨pyGetElem_none_iff t.entries i, ?_, ?_, ?_, ?_⟩
  · exact fun h1 h2 => pyGetElem_neg t.entries i h1 h2
  · show (pyGetElem t.entries i).map _ = none
      ↔ (i < -(t.get_entry_count : Int) ∨ (t.get_entry_count : Int) ≤ i)
    rw [Option.map_eq_none']
    exact pyGetElem_none_iff t.entries i
  · show (t.entries.insertIdx (pyInsertIdx t.entries.length i) o).length
      = t.entries.length + 1
    exact List.length_insertIdx _ _ (pyInsertIdx_le _ _)
  · intro h1 h2
    show t.entries.insertIdx (pyInsertIdx t.entries.length i) o
      = t.entries.insertIdx i.toNat o
    congr 1
    unfold pyInsertIdx
    rw [if_neg (by omega)]
    simp only [Table.get_entry_count] at h2
    omega

/-- Witness for C5 (amended): on the empty table, `get_entry 0` fails. -/
theorem index_ops_python_semantics_witness :
    (Table.mk ⟨["A"]⟩ []).get_entry 0 = none :=
  (index_ops_python_semantics (Table.mk ⟨["A"]⟩ []) 0 ⟨0, Entry.mk []⟩).1.mpr (by decide)

theorem Entry.ext_cells {a b : Entry} (h : a.cells = b.cells) : a = b := by
  cases a
  cases b
  simpa using h

theorem Entry.init_zero_count (values : List String) :
    (Entry.init 0 values).get_column_count = values.length := by
  rw [Entry.get_column_count, Entry.init_cells_zero, List.length_map]

theorem attachCopies_getElem? (fresh i : Nat) (l : List Obj) :
    (attachCopies fresh l)[i]?
      = (l[i]?).map (fun o => (⟨fresh + i, o.val.get_deep_copy⟩ : Obj)) := by
  induction l generalizing fresh i with
  | nil => simp [attachCopies]
  | cons x xs ih =>
    cases i with
    | zero => simp [attachCopies]
    | succ m =>
      rw [show attachCopies fresh (x :: xs)
          = ⟨fresh, x.val.get_deep_copy⟩ :: attachCopies (fresh + 1) xs from rfl,
        List.getElem?_cons_succ, List.getElem?_cons_succ, ih (fresh + 1) m]
      have h1 : fresh + 1 + m = fresh + (m + 1) := by omega
      rw [h1]

theorem attachCopies_map_val (fresh : Nat) (l : List Obj) :
    (attachCopies fresh l).map Obj.val = l.map (fun o => o.val.get_deep_copy) := by
  induction l generalizing fresh with
  | nil => rfl
  | cons x xs ih =>
    show Obj.val ⟨fresh, x.val.get_deep_copy⟩ :: (attachCopies (fresh + 1) xs).map Obj.val
      = _
    rw [ih]
    rfl

/-- C8: a data record with fewer fields than the header parses into an entry
whose column count is the record's own field count (no padding to header
width), each non-empty field seeding exactly one value and each empty field
leaving its column empty. -/
theorem short_row_parsing (header_list row : List String) (rows : List (List String))
    (i fresh : Nat) (hrow : rows[i]? = some row)
    (hshort : row.length < header_list.length) :
    ∀ t : Table, CSV_to_table (header_list :: rows) fresh = Except.ok t →
      (t.entries[i]?).map (fun o => o.val.get_column_count) = some row.length
      ∧ (t.entries[i]?).map (fun o => o.val.cells)
        = some (row.map (fun v => if v = "" then [] else [v])) := by
  intro t ht
  simp only [CSV_to_table] at ht
  cases ht
  show ((attachCopies fresh (rows.map fun r => (⟨0, Entry.init 0 r⟩ : Obj)))[i]?).map _
      = some row.length
    ∧ ((attachCopies fresh (rows.map fun r => (⟨0, Entry.init 0 r⟩ : Obj)))[i]?).map _
      = some (row.map (fun v => if v = "" then [] else [v]))
  rw [attachCopies_getElem?, List.getElem?_map, hrow]
  simp only [Option.map_some']
  rw [Entry.get_deep_copy_id _ (Entry.init_inv 0 row)]
  exact ⟨congrArg some (Entry.init_zero_count row),
    congrArg some (Entry.init_cells_zero row)⟩

/-- Witness for C8: the two-column header with the one-field record
`["x"]` yields a one-column entry holding the single value `x`. -/
theorem short_row_parsing_witness :
    ((Table.mk ⟨["A", "B"]⟩ [⟨7, Entry.mk [["x"]]⟩]).entries[0]?).map
      (fun o => o.val.get_column_count) = some 1
    ∧ ((Table.mk ⟨["A", "B"]⟩ [⟨7, Entry.mk [["x"]]⟩]).entries[0]?).map
      (fun o => o.val.cells) = some [["x"]] :=
  short_row_parsing ["A", "B"] ["x"] [["x"]] 0 7 (by decide) (by decide)
    (Table.mk ⟨["A", "B"]⟩ [⟨7, Entry.mk [["x"]]⟩]) (by rfl)

theorem seed_join (cell : List String) (hone : cell.length ≤ 1) (hne : "" ∉ cell) :
    (if String.intercalate ", " cell = "" then ([] : List String)
      else [String.intercalate ", " cell]) = cell := by
  cases cell with
  | nil => rfl
  | cons v rest =>
    cases rest with
    | nil =>
      have hv : v ≠ "" := fun h => hne (by simp [h])
      have hj : String.intercalate ", " [v] = v := rfl
      rw [hj, if_neg hv]
    | cons w rest2 =>
      simp only [List.length_cons] at hone
      omega

theorem map_range_getD (l : List (List String)) :
    (List.range l.length).map (fun c => (l[c]?).getD []) = l := by
  apply List.ext_getElem?
  intro n
  rw [List.getElem?_map]
  by_cases hn : n < l.length
  · rw [List.getElem?_range hn, Option.map_some', List.getElem?_eq_getElem hn]
    rfl
  · rw [List.getElem?_eq_none (show (List.range l.length).length ≤ n by
        simp only [List.length_range]; omega),
      Option.map_none', List.getElem?_eq_none (by omega)]

theorem entry_round_trip (e : Entry)
    (hone : ∀ cell ∈ e.cells, cell.length ≤ 1) (hne : ∀ cell ∈ e.cells, "" ∉ cell) :
    (Entry.init 0 (e.get_value_str_from_columns ", ")).get_deep_copy = e := by
  rw [Entry.get_deep_copy_id _ (Entry.init_inv _ _)]
  apply Entry.ext_cells
  rw [Entry.init_cells_zero]
  unfold Entry.get_value_str_from_columns
  rw [List.map_map]
  have hcong : ∀ c ∈ List.range e.get_column_count,
      ((fun v => if v = "" then ([] : List String) else [v])
        ∘ fun (c : Nat) => e.get_value_str_from_column (c : Int) ", ") c
      = (fun c => (e.cells[c]?).getD []) c := by
    intro c hc
    have hcn : c < e.get_column_count := List.mem_range.mp hc
    simp only [Function.comp]
    unfold Entry.get_value_str_from_column
    rw [if_neg (show ¬ ((c : Int) < 0 ∨ (e.get_column_count : Int) ≤ (c : Int)) by
      rw [not_or]; exact ⟨by omega, by omega⟩)]
    rw [Entry.get_values_from_column_getD]
    exact seed_join (e.valuesAt c) (hone _ (Entry.valuesAt_mem e c hcn))
      (hne _ (Entry.valuesAt_mem e c hcn))
  rw [List.map_congr_left hcong]
  exact map_range_getD e.cells

/-- C1 counterexample: the table with header `A` and one entry whose single
cell holds the two values `a` and `b` (no newlines, no quote characters,
so the claim's hypothesis holds) does not survive the round trip:
serialization joins the cell into the single field `a, b`, which parses
back as one value, so the parsed table is not equal to the original. -/
theorem csv_round_trip_counterexample :
    CSV_to_table (table_to_CSV (Table.mk ⟨["A"]⟩ [⟨0, Entry.mk [["a", "b"]]⟩])) 0
      = Except.ok (Table.mk ⟨["A"]⟩ [⟨0, Entry.mk [["a, b"]]⟩])
    ∧ ¬ (Table.mk ⟨["A"]⟩ [⟨0, Entry.mk [["a, b"]]⟩]).veq
      (Table.mk ⟨["A"]⟩ [⟨0, Entry.mk [["a", "b"]]⟩])
    ∧ (∀ ch ∈ "a".data, ch ≠ Char.ofNat 10 ∧ ch ≠ Char.ofNat 34)
    ∧ (∀ ch ∈ "b".data, ch ≠ Char.ofNat 10 ∧ ch ≠ Char.ofNat 34) := by
  refine ⟨by rfl, by decide, by decide, by decide⟩

/-- C1 amended: the CSV round trip `CSV_to_table (table_to_CSV t)` (record
level, matching encodings) reproduces `t` up to value equality provided —
beyond the claim's hypothesis that values contain no newline, carriage
return or quote characters, which must extend to the header names because
the source reads with universal newlines (no `newline=''` on the read
path), so a carriage return inside any quoted field, a header name
included, would be translated before `csv.reader` sees it — every cell of
`t` holds at most one value and no cell contains the empty string: with
multi-valued cells the `", "` join collapses the values into one field, as
the counterexample shows.  The character hypotheses are exactly the region
where the record-level embedding of the text layer is faithful; the
at-most-one-value and no-empty-string hypotheses are what the proof
consumes. -/
theorem csv_round_trip (t : Table)
    (hhd : ∀ name ∈ t.header.column_names, ∀ ch ∈ name.data,
      ch ≠ Char.ofNat 10 ∧ ch ≠ Char.ofNat 13 ∧ ch ≠ Char.ofNat 34)
    (hnl : ∀ o ∈ t.entries, ∀ cell ∈ o.val.cells, ∀ v ∈ cell, ∀ ch ∈ v.data,
      ch ≠ Char.ofNat 10 ∧ ch ≠ Char.ofNat 13 ∧ ch ≠ Char.ofNat 34)
    (hone : ∀ o ∈ t.entries, ∀ cell ∈ o.val.cells, cell.length ≤ 1)
    (hne : ∀ o ∈ t.entries, ∀ cell ∈ o.val.cells, "" ∉ cell)
    (fresh : Nat) :
    ∀ t' : Table, CSV_to_table (table_to_CSV t) fresh = Except.ok t' → t'.veq t := by
  intro t' ht
  simp only [table_to_CSV, CSV_to_table] at ht
  cases ht
  constructor
  · rfl
  · show (attachCopies fresh (((t.get_entries.map
        (fun o => o.val.get_value_str_from_columns ", ")).map
        (fun row => (⟨0, Entry.init 0 row⟩ : Obj))))).map Obj.val
      = t.entries.map Obj.val
    rw [attachCopies_map_val, List.map_map, List.map_map]
    apply List.map_congr_left
    intro o ho
    exact entry_round_trip o.val (hone o ho) (hne o ho)

/-- Witness for C1 (amended) at a concrete single-valued table (one value
in the first cell, an empty second cell). -/
theorem csv_round_trip_witness :
    (Table.mk ⟨["A", "B"]⟩ [⟨0, Entry.mk [["a"], []]⟩]).veq
      (Table.mk ⟨["A", "B"]⟩ [⟨3, Entry.mk [["a"], []]⟩]) :=
  csv_round_trip (Table.mk ⟨["A", "B"]⟩ [⟨3, Entry.mk [["a"], []]⟩])
    (by decide) (by decide) (by decide) (by decide) 0
    (Table.mk ⟨["A", "B"]⟩ [⟨0, Entry.mk [["a"], []]⟩]) (by rfl)
